import Mathlib

/-
Verification development for the AI-Chat-App repository (src/kivy).

The embedding below models, faithfully to the Python source:
  - src/kivy/ollamaApi.py : get_llm_models and chat_with_llm;
  - src/kivy/main.py      : the transcript / in-flight-guard state touched by
    MyApp.send_message and MyApp.ollama_callback, and the two regex-based text
    sanitizers (the <THINK> stripper and the markup-tag stripper of label_copy).

Network effects are modelled by explicit outcome values (the decoded JSON on
success, the exception text on failure); JSON objects are association lists; a
Python `try` block that swallows an exception becomes a total function that
maps the failing outcome to the value the `except` clause produces.
-/

set_option maxHeartbeats 1000000

namespace AIChat

/-- Messages of the OpenAI-style transcript: Python dicts with a "role" and a
"content" field, as appended by MyApp.send_message and MyApp.ollama_callback
in src/kivy/main.py. -/
structure ChatMessage where
  role : String
  content : String
deriving DecidableEq

/-- Contiguous-substring occurrence test, modelling the Python expression
`name.find(sub) != -1` used in get_llm_models (str.find returns -1 exactly
when the substring does not occur, case-sensitively). -/
def hasSubstr : List Char → List Char → Bool
  | [], sub => sub.isEmpty
  | c :: rest, sub => List.isPrefixOf sub (c :: rest) || hasSubstr rest sub

/-- Outcome of the HTTP GET, raise_for_status and response.json() sequence in
get_llm_models (src/kivy/ollamaApi.py): either one of those steps threw
(connection error, 4xx/5xx status, malformed JSON body), or a JSON object was
decoded, whose "models" entry (defaulted to [] by dict.get) is a list of
entries; each entry is modelled by the optional value of its "name" field
(none when the entry lacks the field, in which case the subscript
model["name"] raises KeyError). -/
inductive TagsOutcome where
  | transportError
  | ok (entries : List (Option String))

/-- Loop body of get_llm_models: walk the entries of models_data.get("models", []),
read model["name"] (a KeyError aborts the loop and is caught by the enclosing
except clause, which returns the names accumulated so far), and keep the names
with name.find("embed") == -1. -/
def collectNames : List (Option String) → List String
  | [] => []
  | none :: _ => []
  | some n :: rest =>
    if hasSubstr n.data "embed".data then collectNames rest
    else n :: collectNames rest

/-- Shallow embedding of get_llm_models (src/kivy/ollamaApi.py): on any
transport, status or JSON failure the except clause returns the accumulator,
which is still empty at that point; on a decoded response the loop collects
the non-embedding names. -/
def get_llm_models : TagsOutcome → List String
  | .transportError => []
  | .ok entries => collectNames entries

/-- JSON values, used to model the decoded body of the /api/chat response. -/
inductive JsonVal where
  | str (s : String)
  | num (n : Int)
  | bool (b : Bool)
  | null
  | arr (elems : List JsonVal)
  | obj (fields : List (String × JsonVal))

/-- Field lookup in a decoded JSON object, modelling the pair of Python
operations `"message" in respDict` and `respDict["message"]`. -/
def lookupField : List (String × JsonVal) → String → Option JsonVal
  | [], _ => none
  | (k, v) :: rest, key => if k = key then some v else lookupField rest key

/-- Request body assembled by chat_with_llm (src/kivy/ollamaApi.py): the dict
msg_body = { "model": model, "messages": messages, "stream": False }. -/
structure ChatRequestBody where
  model : String
  messages : List ChatMessage
  stream : Bool
deriving DecidableEq

/-- Constructor mirroring the msg_body literal of chat_with_llm. -/
def msg_body (model : String) (messages : List ChatMessage) : ChatRequestBody :=
  { model := model, messages := messages, stream := false }

/-- Outcome of the HTTP POST plus response.json() in chat_with_llm: either an
exception was raised somewhere in the try block (carrying the exception text
that str-formats into the error message), or a JSON object was decoded. -/
inductive ChatHttpOutcome where
  | exc (e : String)
  | ok (respDict : List (String × JsonVal))

/-- Shallow embedding of chat_with_llm (src/kivy/ollamaApi.py). The first
component is the request body it POSTs to {url}/api/chat; the second is the
return_resp value it delivers (returned directly, or passed to the callback
scheduled via Clock.schedule_once — the delivery mechanism is outside the
model). The "init" placeholder value is overwritten on every path, exactly as
in the source, so it does not appear. -/
def chat_with_llm (model : String) (messages : List ChatMessage)
    (outcome : ChatHttpOutcome) : ChatRequestBody × JsonVal :=
  let return_resp : JsonVal :=
    match outcome with
    | .ok respDict =>
      match lookupField respDict "message" with
      | some m => m
      | none => .obj [("role", .str "error"), ("content", .str "**Error** in LLM response!")]
    | .exc e => .obj [("role", .str "error"),
        ("content", .str ("**Error** with Ollama: " ++ e))]
  (msg_body model messages, return_resp)

/-- Case-insensitive character-by-character test that pat occurs at the head
of s, modelling how the re.IGNORECASE flag compares the literal parts of the
pattern in MyApp.ollama_callback. -/
def icMatches : List Char → List Char → Bool
  | _, [] => true
  | [], _ :: _ => false
  | c :: s, p :: ps => (c.toLower == p.toLower) && icMatches s ps

/-- Literal opening delimiter of the hidden-reasoning pattern. -/
def openThink : List Char := "<THINK>".data

/-- Literal closing delimiter of the hidden-reasoning pattern. -/
def closeThink : List Char := "</THINK>".data

/-- Scan for the earliest case-insensitive occurrence of the closing delimiter
and return the remainder of the text after it; none when no closing delimiter
occurs. This models the lazy quantifier between the delimiters in the pattern
of re.sub (with re.DOTALL the dot also crosses newlines, so every character
may stand between the delimiters, which the model reflects by skipping any
character). -/
def afterClose : List Char → Option (List Char)
  | [] => none
  | c :: rest =>
    if icMatches (c :: rest) closeThink then some ((c :: rest).drop 8)
    else afterClose rest

/-- Fuelled scan of re.sub applied to the hidden-reasoning pattern: at each
position, if the opening delimiter matches here and a closing delimiter occurs
later, the leftmost-shortest match of the pattern is removed and scanning
resumes after it; otherwise the character is kept. When the opening delimiter
matches but no closing delimiter ever follows, no match of the pattern can
start at this or any later position (the pattern needs a closing delimiter,
and none remains), so the rest of the text is kept verbatim. The fuel only
forces structural termination; stripThink supplies enough of it. -/
def stripThinkGo : Nat → List Char → List Char
  | 0, s => s
  | _ + 1, [] => []
  | fuel + 1, c :: rest =>
    if icMatches (c :: rest) openThink then
      match afterClose ((c :: rest).drop 7) with
      | some rem => stripThinkGo fuel rem
      | none => c :: rest
    else c :: stripThinkGo fuel rest

/-- Shallow embedding of the sanitizer line of MyApp.ollama_callback
(src/kivy/main.py): re.sub applied to the raw pattern matching a literal
opening THINK delimiter, a lazy run of arbitrary characters, and a literal
closing THINK delimiter, with flags re.DOTALL and re.IGNORECASE, replacing
every non-overlapping match (scanned left to right) by the empty string. -/
def stripThink (s : List Char) : List Char :=
  stripThinkGo s.length s

/-- Decidable test that some match of the hidden-reasoning pattern starts
somewhere in the text: an opening delimiter with a closing delimiter after it. -/
def hasThinkBlock : List Char → Bool
  | [] => false
  | c :: rest =>
    (icMatches (c :: rest) openThink && (afterClose ((c :: rest).drop 7)).isSome)
      || hasThinkBlock rest

/-- Alternation of the markup-stripping pattern in MyApp.label_copy, in the
order the alternatives appear in the regular expression. -/
def tagAlts : List (List Char) :=
  ["color", "b", "i", "u", "s", "sub", "sup", "font", "font_context",
   "font_family", "font_features", "size", "ref", "anchor",
   "text_language"].map String.data

/-- Scan for the first closing square bracket and return the remainder after
it, modelling the lazy run followed by the literal closing bracket at the end
of the markup pattern. The re.sub of label_copy is called without re.DOTALL,
so the dot of the lazy run matches any character except a newline: a newline
encountered before the closing bracket makes the match at this position fail,
which the scan reflects by stopping with none. -/
def afterRBracket : List Char → Option (List Char)
  | [] => none
  | c :: rest =>
    if c == ']' then some rest
    else if c == '\n' then none
    else afterRBracket rest

/-- Consume the optional slash of the markup pattern when present. -/
def stripSlash : List Char → List Char
  | '/' :: r => r
  | s => s

/-- Attempt to match the markup pattern right after its leading open bracket:
an optional slash, then the first alternative (in pattern order) that matches
here, then a lazy run of non-newline characters up to the first closing
bracket. Returns the remainder of the text after the whole match, or none
when the pattern does not match at this position. In the alternation every
alternative that is a proper prefix of another one precedes it, so the first
match found by List.find? is the one the regex engine commits to; and since
no alternative contains a closing bracket or a newline, the first closing
bracket or newline after the committed alternative is the same as after any
longer prefix-comparable alternative, so the extent of the whole match — and
whether it fails on a newline — does not depend on which alternative was
chosen. -/
def matchTag (s : List Char) : Option (List Char) :=
  match tagAlts.find? (fun alt => List.isPrefixOf alt (stripSlash s)) with
  | some alt => afterRBracket ((stripSlash s).drop alt.length)
  | none => none

/-- Fuelled scan of re.sub applied to the markup pattern: at each position, if
the character is an open bracket and the rest of the pattern matches, the
match is removed and scanning resumes after it; otherwise — no open bracket,
no matching alternative, or no closing bracket before a newline or the end —
the character is kept and scanning resumes at the next position, exactly as
the regex engine retries a failed match attempt one character further. The
fuel only forces structural termination; stripMarkup supplies enough. -/
def stripMarkupGo : Nat → List Char → List Char
  | 0, s => s
  | _ + 1, [] => []
  | fuel + 1, c :: rest =>
    if c == '[' then
      match matchTag rest with
      | some rem => stripMarkupGo fuel rem
      | none => c :: stripMarkupGo fuel rest
    else c :: stripMarkupGo fuel rest

/-- Shallow embedding of the re.sub call of MyApp.label_copy
(src/kivy/main.py): remove every non-overlapping match (scanned left to
right) of an open bracket, an optional slash, one of the listed tag names,
a lazy run of non-newline characters and a closing bracket (the call passes
no re.DOTALL flag, so the run cannot cross a newline). -/
def stripMarkup (s : List Char) : List Char :=
  stripMarkupGo s.length s

/-- Shallow embedding of MyApp.label_copy (src/kivy/main.py): the plain text
it computes and hands to Clipboard.copy. -/
def label_copy (label_text : String) : String :=
  String.mk (stripMarkup label_text.data)

/-- Whitespace test behind Python str.strip(): the ASCII whitespace characters
space, tab, newline, carriage return, vertical tab and form feed. -/
def isPySpace (c : Char) : Bool :=
  c == ' ' || c == '\t' || c == '\n' || c == '\r' || c == '\x0b' || c == '\x0c'

/-- Model of the Python expression chat_input_widget.text.strip() in
MyApp.send_message: drop whitespace from both ends. -/
def pyStrip (s : String) : String :=
  String.mk (((s.data.dropWhile isPySpace).reverse.dropWhile isPySpace).reverse)

/-- State of MyApp (src/kivy/main.py) touched by the chat send path: the
running transcript self.messages, the in-flight guard self.is_llm_running,
the active model self.selected_llm and the server base URI self.ollama_uri.
UI-only state (widgets, menus, the spinner) is outside the model. -/
structure AppState where
  messages : List ChatMessage
  is_llm_running : Bool
  selected_llm : String
  ollama_uri : String
deriving DecidableEq

/-- State right after MyApp.build and MyApp.on_start: empty transcript, guard
cleared, no model selected yet, default URI. -/
def initState : AppState :=
  { messages := []
    is_llm_running := false
    selected_llm := ""
    ollama_uri := "http://localhost:11434" }

/-- Externally visible outcome of one call to MyApp.send_message: the busy
toast ("Please wait for the current response"), the empty-input toast
("Please type a message!"), or the dispatch of a worker thread that will POST
the given request body via chat_with_llm. -/
inductive SendEffect where
  | busyToast
  | emptyToast
  | dispatched (body : ChatRequestBody)
deriving DecidableEq

/-- Shallow embedding of MyApp.send_message (src/kivy/main.py), as one atomic
UI-thread event handler. If the guard is set, a busy toast is shown and
nothing else happens. Otherwise the stripped input, when non-empty, is
appended to the transcript as a user message, a worker thread is dispatched
with arguments (self.ollama_uri, self.selected_llm, self.messages[-3:],
self.ollama_callback) — the Python slice [-3:] is List.drop (length - 3) —
and the guard is set; the body it will transmit is msg_body applied to those
arguments, as assembled inside chat_with_llm. Empty stripped input only shows
a toast. -/
def send_message (st : AppState) (input : String) : AppState × SendEffect :=
  if st.is_llm_running then (st, .busyToast)
  else
    let user_message := pyStrip input
    if user_message = "" then (st, .emptyToast)
    else
      let msgs := st.messages ++ [{ role := "user", content := user_message }]
      ({ st with messages := msgs, is_llm_running := true },
       .dispatched (msg_body st.selected_llm (msgs.drop (msgs.length - 3))))

/-- Shallow embedding of MyApp.ollama_callback (src/kivy/main.py), the
delivery handler run on the UI thread with the result dict of chat_with_llm:
append the result to the transcript only when its role is "assistant", strip
hidden-reasoning blocks from its content, prefix the bot marker, clear the
in-flight guard. The second component is the text handed to add_bot_message. -/
def ollama_callback (st : AppState) (llm_resp : ChatMessage) : AppState × String :=
  let messages :=
    if llm_resp.role = "assistant" then st.messages ++ [llm_resp] else st.messages
  let api_msg := stripThink llm_resp.content.data
  ({ st with messages := messages, is_llm_running := false },
   String.mk ("**Bot:** \n".data ++ api_msg))

/-- Number of chat requests a send effect puts in flight: one for a dispatch,
zero for either toast. -/
def dispatchCount : SendEffect → Nat
  | .dispatched _ => 1
  | _ => 0

/-- UI-thread event steps of the chat session, tracking the number of
outstanding chat requests alongside the application state: a send_message
call (which puts dispatchCount more requests in flight), or the delivery of
an outstanding request's result through ollama_callback. -/
inductive Step : AppState × Nat → AppState × Nat → Prop where
  | send (st : AppState) (n : Nat) (input : String) (st2 : AppState) (eff : SendEffect) :
      send_message st input = (st2, eff) →
      Step (st, n) (st2, n + dispatchCount eff)
  | deliver (st : AppState) (n : Nat) (resp : ChatMessage) (st2 : AppState)
      (rendered : String) :
      0 < n → ollama_callback st resp = (st2, rendered) →
      Step (st, n) (st2, n - 1)

/-- States reachable from the freshly started app with no request in flight. -/
def Reachable (s : AppState × Nat) : Prop :=
  Relation.ReflTransGen Step (initState, 0) s

/-- Characterisation of the executable occurrence test by the mathematical
infix relation on lists. -/
theorem hasSubstr_iff (s sub : List Char) : hasSubstr s sub = true ↔ sub <:+: s := by
  induction s with
  | nil =>
    simp [hasSubstr, List.isEmpty_iff, List.infix_nil]
  | cons c rest ih =>
    simp [hasSubstr, List.infix_cons_iff, List.isPrefixOf_iff_prefix, ih]

/-- Executable occurrence test as the decision procedure of the infix
relation. -/
theorem hasSubstr_eq_decide (s sub : List Char) :
    hasSubstr s sub = decide (sub <:+: s) := by
  by_cases h : sub <:+: s
  · simp [h, (hasSubstr_iff s sub).mpr h]
  · have h2 : hasSubstr s sub ≠ true := fun hc => h ((hasSubstr_iff s sub).mp hc)
    simp [h, Bool.eq_false_iff.mpr h2]

/-- Appending a string to the right of anything makes it a substring of the
result. -/
theorem hasSubstr_append_self (a b : List Char) : hasSubstr (a ++ b) b = true :=
  (hasSubstr_iff _ _).mpr (List.suffix_append a b).isInfix

/-- On a listing whose entries are all well-formed, the loop of
get_llm_models is a plain filter on the embed test. -/
theorem collectNames_map_some (names : List String) :
    collectNames (names.map some) =
      names.filter (fun n => ! hasSubstr n.data "embed".data) := by
  induction names with
  | nil => rfl
  | cons n rest ih =>
    cases h : hasSubstr n.data "embed".data <;>
      simp [collectNames, List.filter_cons, h, ih]

/-- With a malformed entry in the middle, the loop of get_llm_models returns
the filtered prefix before it and drops everything from the malformed entry
on, because the KeyError aborts the loop. -/
theorem collectNames_append_none (pre : List String) (rest : List (Option String)) :
    collectNames (pre.map some ++ none :: rest) =
      pre.filter (fun n => ! hasSubstr n.data "embed".data) := by
  induction pre with
  | nil => rfl
  | cons n pre2 ih =>
    cases h : hasSubstr n.data "embed".data <;>
      simp [collectNames, List.filter_cons, h, ih]

/-- When no complete hidden-reasoning block occurs in the text, the fuelled
scan keeps every character, whatever the fuel. -/
theorem stripThinkGo_no_block :
    ∀ (fuel : Nat) (s : List Char), hasThinkBlock s = false → stripThinkGo fuel s = s := by
  intro fuel
  induction fuel with
  | zero => intro s _; rfl
  | succ f ih =>
    intro s h
    match s with
    | [] => rfl
    | c :: rest =>
      simp only [hasThinkBlock, Bool.or_eq_false_iff, Bool.and_eq_false_iff] at h
      simp only [stripThinkGo]
      cases hic : icMatches (c :: rest) openThink with
      | false => simp [ih rest h.2]
      | true =>
        cases hac : afterClose ((c :: rest).drop 7) with
        | none => simp
        | some rem =>
          rcases h.1 with h1 | h1
          · rw [hic] at h1; cases h1
          · rw [hac] at h1; cases h1

/-- Sanitizer identity on texts with no complete hidden-reasoning block. -/
theorem stripThink_no_block (s : List Char) (h : hasThinkBlock s = false) :
    stripThink s = s :=
  stripThinkGo_no_block s.length s h

/-- Scanning past the first closing bracket shortens the text. -/
theorem afterRBracket_length :
    ∀ (s r : List Char), afterRBracket s = some r → r.length < s.length := by
  intro s
  induction s with
  | nil => intro r h; cases h
  | cons c rest ih =>
    intro r h
    simp only [afterRBracket] at h
    by_cases hc : c == ']'
    · rw [if_pos hc] at h
      cases h
      simp
    · rw [if_neg hc] at h
      by_cases hn : c == '\n'
      · rw [if_pos hn] at h
        cases h
      · rw [if_neg hn] at h
        have := ih r h
        simp
        omega

/-- Consuming the optional slash does not lengthen the text. -/
theorem stripSlash_length (s : List Char) : (stripSlash s).length ≤ s.length := by
  match s with
  | [] => exact Nat.le_refl _
  | c :: rest =>
    by_cases hc : c = '/'
    · subst hc; simp [stripSlash]
    · have : stripSlash (c :: rest) = c :: rest := by
        simp only [stripSlash]
        split
        · rename_i heq
          injection heq with h1 h2
          exact absurd h1 hc
        · rfl
      rw [this]

/-- A successful match of the markup pattern leaves a shorter remainder. -/
theorem matchTag_length (s r : List Char) (h : matchTag s = some r) :
    r.length ≤ s.length := by
  unfold matchTag at h
  cases hf : tagAlts.find? (fun alt => List.isPrefixOf alt (stripSlash s)) with
  | none => rw [hf] at h; cases h
  | some alt =>
    rw [hf] at h
    have h1 := afterRBracket_length _ _ h
    have h2 := stripSlash_length s
    rw [List.length_drop] at h1
    omega

/-- The fuelled markup scan does not depend on the fuel as long as the fuel
covers the length of the text. -/
theorem stripMarkupGo_congr :
    ∀ (f1 : Nat) (s : List Char) (f2 : Nat), s.length ≤ f1 → s.length ≤ f2 →
      stripMarkupGo f1 s = stripMarkupGo f2 s := by
  intro f1
  induction f1 with
  | zero =>
    intro s f2 h1 _
    have hs : s = [] := List.eq_nil_of_length_eq_zero (Nat.le_zero.mp h1)
    subst hs
    cases f2 <;> rfl
  | succ f ih =>
    intro s f2 h1 h2
    match s with
    | [] => cases f2 <;> rfl
    | c :: rest =>
      cases f2 with
      | zero => simp at h2
      | succ f2x =>
        simp only [stripMarkupGo]
        simp only [List.length_cons] at h1 h2
        by_cases hc : c == '['
        · rw [if_pos hc, if_pos hc]
          cases hm : matchTag rest with
          | none => rw [ih rest f2x (by omega) (by omega)]
          | some rem =>
            have := matchTag_length rest rem hm
            exact ih rem f2x (by omega) (by omega)
        · rw [if_neg hc, if_neg hc, ih rest f2x (by omega) (by omega)]

/-- The fuelled markup scan never lengthens the text. -/
theorem stripMarkupGo_length :
    ∀ (f : Nat) (s : List Char), (stripMarkupGo f s).length ≤ s.length := by
  intro f
  induction f with
  | zero => intro s; exact Nat.le_refl _
  | succ f ih =>
    intro s
    match s with
    | [] => exact Nat.le_refl _
    | c :: rest =>
      simp only [stripMarkupGo]
      by_cases hc : c == '['
      · rw [if_pos hc]
        cases hm : matchTag rest with
        | none => simpa using ih rest
        | some rem =>
          have h1 := matchTag_length rest rem hm
          have h2 := ih rem
          simp only [List.length_cons]
          omega
      · rw [if_neg hc]
        simpa using ih rest

/-- The markup pattern matches an opening tag of exactly the listed tag names
followed by its closing bracket, and consumes exactly it. -/
theorem matchTag_open (alt : List Char) (halt : alt ∈ tagAlts) (r : List Char) :
    matchTag (alt ++ ']' :: r) = some r := by
  simp only [tagAlts, List.map, List.mem_cons, List.not_mem_nil, or_false] at halt
  rcases halt with h|h|h|h|h|h|h|h|h|h|h|h|h|h|h <;> subst h <;> rfl

/-- The markup pattern matches a closing tag of exactly the listed tag names
followed by its closing bracket, and consumes exactly it. -/
theorem matchTag_close (alt : List Char) (halt : alt ∈ tagAlts) (r : List Char) :
    matchTag ('/' :: (alt ++ ']' :: r)) = some r := by
  simp only [tagAlts, List.map, List.mem_cons, List.not_mem_nil, or_false] at halt
  rcases halt with h|h|h|h|h|h|h|h|h|h|h|h|h|h|h <;> subst h <;> rfl

/-- Stripping a text that begins with an opening tag of the listed set removes
exactly that tag. -/
theorem stripMarkup_open_tag (alt : List Char) (halt : alt ∈ tagAlts) (r : List Char) :
    stripMarkup ('[' :: (alt ++ ']' :: r)) = stripMarkup r := by
  have hm := matchTag_open alt halt r
  show stripMarkupGo ('[' :: (alt ++ ']' :: r)).length ('[' :: (alt ++ ']' :: r)) =
    stripMarkupGo r.length r
  rw [List.length_cons]
  simp only [stripMarkupGo, if_pos (by rfl : ('[' == '[') = true), hm]
  exact stripMarkupGo_congr _ r r.length (by simp; omega) (Nat.le_refl _)

/-- Stripping a text that begins with a closing tag of the listed set removes
exactly that tag. -/
theorem stripMarkup_close_tag (alt : List Char) (halt : alt ∈ tagAlts) (r : List Char) :
    stripMarkup ('[' :: '/' :: (alt ++ ']' :: r)) = stripMarkup r := by
  have hm := matchTag_close alt halt r
  show stripMarkupGo ('[' :: '/' :: (alt ++ ']' :: r)).length
      ('[' :: '/' :: (alt ++ ']' :: r)) = stripMarkupGo r.length r
  rw [List.length_cons]
  simp only [stripMarkupGo, if_pos (by rfl : ('[' == '[') = true), hm]
  exact stripMarkupGo_congr _ r r.length (by simp; omega) (Nat.le_refl _)

/-- The fuelled markup scan keeps characters outside any match: a prefix with
no open bracket passes through unchanged. -/
theorem stripMarkupGo_clean_append :
    ∀ (pre : List Char) (f : Nat) (r : List Char), '[' ∉ pre →
      stripMarkupGo (pre.length + f) (pre ++ r) = pre ++ stripMarkupGo f r := by
  intro pre
  induction pre with
  | nil => intro f r _; simp
  | cons c pre2 ih =>
    intro f r h
    have hc : ¬ (c == '[') = true := by
      simp only [beq_iff_eq]
      intro hc
      exact h (by rw [hc]; exact List.mem_cons_self _ _)
    have harith : (c :: pre2).length + f = (pre2.length + f) + 1 := by
      simp [List.length_cons]; omega
    rw [harith]
    show stripMarkupGo ((pre2.length + f) + 1) (c :: (pre2 ++ r)) = _
    simp only [stripMarkupGo, if_neg hc]
    rw [ih f r (fun hm => h (List.mem_cons_of_mem _ hm))]
    rfl

/-- Markup stripping leaves a bracket-free prefix intact and proceeds on the
rest of the text. -/
theorem stripMarkup_clean_append (pre r : List Char) (h : '[' ∉ pre) :
    stripMarkup (pre ++ r) = pre ++ stripMarkup r := by
  show stripMarkupGo (pre ++ r).length (pre ++ r) = pre ++ stripMarkupGo r.length r
  rw [List.length_append]
  exact stripMarkupGo_clean_append pre r.length r h

/-- When the in-flight guard is set, send_message only shows the busy toast
and changes nothing. -/
theorem send_message_busy (st : AppState) (input : String)
    (h : st.is_llm_running = true) :
    send_message st input = (st, .busyToast) := by
  simp [send_message, h]

/-- When the guard is clear and the stripped input is empty, send_message only
shows the empty-input toast and changes nothing. -/
theorem send_message_empty (st : AppState) (input : String)
    (h1 : st.is_llm_running = false) (h2 : pyStrip input = "") :
    send_message st input = (st, .emptyToast) := by
  simp [send_message, h1, h2]

/-- When the guard is clear and the stripped input is non-empty, send_message
appends the user message, sets the guard and dispatches the request whose
body carries the last three entries of the updated transcript. -/
theorem send_message_dispatch_eq (st : AppState) (input : String)
    (h1 : st.is_llm_running = false) (h2 : ¬ pyStrip input = "") :
    send_message st input =
      ({ st with
          messages := st.messages ++ [ChatMessage.mk "user" (pyStrip input)],
          is_llm_running := true },
       .dispatched (msg_body st.selected_llm
         ((st.messages ++ [ChatMessage.mk "user" (pyStrip input)]).drop
           ((st.messages ++ [ChatMessage.mk "user" (pyStrip input)]).length - 3)))) := by
  simp [send_message, h1, h2]

/-- The delivery handler always clears the in-flight guard, and appends the
result to the transcript exactly when the result's role is "assistant". -/
theorem ollama_callback_eq (st : AppState) (resp : ChatMessage) :
    ollama_callback st resp =
      ({ st with
          messages :=
            if resp.role = "assistant" then st.messages ++ [resp] else st.messages,
          is_llm_running := false },
       String.mk ("**Bot:** \n".data ++ stripThink resp.content.data)) := by
  simp [ollama_callback]

/-- Invariant of the chat session: the number of outstanding chat requests
never exceeds one, and the boolean guard is set exactly while a request is
outstanding. -/
theorem reachable_invariant (s : AppState × Nat) (h : Reachable s) :
    s.2 ≤ 1 ∧ (s.1.is_llm_running = true ↔ s.2 = 1) := by
  induction h with
  | refl => exact ⟨Nat.zero_le 1, by simp [initState]⟩
  | tail _ hstep ih =>
    cases hstep with
    | send st n input st2 eff heq =>
      by_cases hr : st.is_llm_running = true
      · rw [send_message_busy st input hr] at heq
        injection heq with he1 he2
        subst he1
        rw [← he2]
        exact ⟨ih.1, by simpa [dispatchCount] using ih.2⟩
      · have hr2 : st.is_llm_running = false := by
          cases hb : st.is_llm_running
          · rfl
          · exact absurd hb hr
        have hn : n = 0 := by
          rcases Nat.lt_or_ge n 1 with hlt | hge
          · omega
          · have : n = 1 := by omega
            exact absurd (ih.2.mpr this) hr
        subst hn
        by_cases hs : pyStrip input = ""
        · rw [send_message_empty st input hr2 hs] at heq
          injection heq with he1 he2
          subst he1
          rw [← he2]
          exact ⟨Nat.zero_le 1, by simp [dispatchCount, hr2]⟩
        · rw [send_message_dispatch_eq st input hr2 hs] at heq
          injection heq with he1 he2
          rw [← he1, ← he2]
          exact ⟨by simp [dispatchCount], by simp [dispatchCount]⟩
    | deliver st n resp st2 rendered hn heq =>
      rw [ollama_callback_eq st resp] at heq
      injection heq with he1 he2
      have h1 : n = 1 := by
        have := ih.1
        omega
      subst h1
      rw [← he1]
      exact ⟨Nat.zero_le 1, by simp⟩

/-- Transcript of ten messages, used to witness the truncation claim on the
spec's ten-message example. -/
def msgsTen : List ChatMessage :=
  (List.range 10).map (fun i => ChatMessage.mk "user" (toString i))

/-- Session state holding the ten-message transcript with no request in
flight. -/
def stTen : AppState :=
  { messages := msgsTen
    is_llm_running := false
    selected_llm := "llama3"
    ollama_uri := "http://localhost:11434" }

/-- Claim C1: for every chat send issued while no request is outstanding and
whose stripped input is non-empty, the request body dispatched by
send_message — the body chat_with_llm transmits — carries exactly the last
three entries of the full transcript as it stands at dispatch (all of them
when it has fewer than three), in order: the transcript is the untransmitted
front followed by the body's message list, whose length is the minimum of
three and the transcript length. -/
theorem c1_context_truncation (st : AppState) (input : String)
    (h1 : st.is_llm_running = false) (h2 : ¬ pyStrip input = "") :
    ∃ (st2 : AppState) (body : ChatRequestBody),
      send_message st input = (st2, .dispatched body) ∧
      st2.messages = st.messages ++ [ChatMessage.mk "user" (pyStrip input)] ∧
      (∀ outcome, (chat_with_llm st.selected_llm body.messages outcome).1 = body) ∧
      st2.messages.take (st2.messages.length - 3) ++ body.messages = st2.messages ∧
      body.messages.length = min 3 st2.messages.length := by
  refine ⟨_, _, send_message_dispatch_eq st input h1 h2, rfl, fun outcome => rfl, ?_, ?_⟩
  · exact List.take_append_drop _ _
  · show (List.drop _ _).length =
      min 3 (st.messages ++ [ChatMessage.mk "user" (pyStrip input)]).length
    rw [List.length_drop]
    omega

/-- Witness for claim C1 at the spec's concrete input: a ten-message
transcript and the send of "hello". -/
theorem c1_context_truncation_witness :
    ∃ (st2 : AppState) (body : ChatRequestBody),
      send_message stTen "hello" = (st2, .dispatched body) ∧
      st2.messages = stTen.messages ++ [ChatMessage.mk "user" (pyStrip "hello")] ∧
      (∀ outcome, (chat_with_llm stTen.selected_llm body.messages outcome).1 = body) ∧
      st2.messages.take (st2.messages.length - 3) ++ body.messages = st2.messages ∧
      body.messages.length = min 3 st2.messages.length :=
  c1_context_truncation stTen "hello" rfl (by decide)

/-- Claim C2: on a listing response whose entries all carry a name field,
get_llm_models returns exactly the names that do not contain the substring
"embed" (case-sensitive substring occurrence), in the order the server
returned them; on the spec's list it returns exactly ["a", "b"]. -/
theorem c2_embed_filter :
    (∀ names : List String,
      get_llm_models (.ok (names.map some)) =
        names.filter (fun n => ! decide ("embed".data <:+: n.data))) ∧
    get_llm_models (.ok ((["a", "a-embed", "embedder", "b"] : List String).map some)) =
      ["a", "b"] := by
  constructor
  · intro names
    rw [show get_llm_models (.ok (names.map some)) = collectNames (names.map some)
          from rfl,
        collectNames_map_some]
    exact List.filter_congr (fun n _ => by rw [hasSubstr_eq_decide])
  · decide

/-- Claim C3: when the decoded chat response is a JSON object with no
"message" field, chat_with_llm produces exactly the role "error" result with
content "**Error** in LLM response!". -/
theorem c3_missing_field_fallback (model : String) (messages : List ChatMessage)
    (respDict : List (String × JsonVal))
    (h : lookupField respDict "message" = none) :
    (chat_with_llm model messages (.ok respDict)).2 =
      JsonVal.obj [("role", .str "error"),
        ("content", .str "**Error** in LLM response!")] := by
  simp [chat_with_llm, h]

/-- Witness for claim C3 at the spec's concrete body: a JSON object with only
an unrelated field. -/
theorem c3_missing_field_fallback_witness :
    (chat_with_llm "m" [] (.ok [("x", JsonVal.num 1)])).2 =
      JsonVal.obj [("role", .str "error"),
        ("content", .str "**Error** in LLM response!")] :=
  c3_missing_field_fallback "m" [] [("x", JsonVal.num 1)] rfl

/-- Claim C4: every exception during the chat POST or JSON decoding is
absorbed into a role "error" result whose content is "**Error** with
Ollama: " followed by the exception text, so the underlying failure detail —
in particular the text "refused" — occurs in the content; the embedding being
a total function reflects that no exception propagates to the caller. -/
theorem c4_transport_failure_message :
    (∀ (model : String) (messages : List ChatMessage) (e : String),
      (chat_with_llm model messages (.exc e)).2 =
        JsonVal.obj [("role", .str "error"),
          ("content", .str ("**Error** with Ollama: " ++ e))]) ∧
    (∀ e : String,
      hasSubstr ("**Error** with Ollama: " ++ e).data e.data = true) ∧
    hasSubstr ("**Error** with Ollama: " ++ "refused").data "refused".data = true := by
  refine ⟨fun model messages e => rfl, fun e => ?_, by decide⟩
  rw [String.data_append]
  exact hasSubstr_append_self _ _

/-- Claim C5: on any transport failure, non-2xx status or malformed JSON the
listing returns the names collected so far — the empty sequence, since every
such failure precedes the collection loop — and an empty sequence is likewise
the non-error result of a response listing no models; the embedding being a
total function reflects that no exception reaches the caller. -/
theorem c5_fail_soft_listing :
    get_llm_models .transportError = [] ∧ get_llm_models (.ok []) = [] :=
  ⟨rfl, rfl⟩

/-- Claim C6: in every reachable state of the session at most one chat
request is outstanding, the boolean guard is set exactly while one is
outstanding (set by the dispatching send and cleared by the delivery, as the
reachability steps encode), and a send attempted while the guard is set is
rejected with the user-visible busy toast, leaving the whole state — in
particular the transcript — unchanged and dispatching nothing. -/
theorem c6_at_most_one_in_flight (s : AppState × Nat) (h : Reachable s) :
    s.2 ≤ 1 ∧ (s.1.is_llm_running = true ↔ s.2 = 1) ∧
      (∀ input : String, s.1.is_llm_running = true →
        send_message s.1 input = (s.1, .busyToast)) := by
  obtain ⟨h1, h2⟩ := reachable_invariant s h
  exact ⟨h1, h2, fun input hr => send_message_busy s.1 input hr⟩

/-- Busy state reached by one dispatching send from the initial state. -/
def stBusy : AppState :=
  { messages := [ChatMessage.mk "user" "hi"]
    is_llm_running := true
    selected_llm := ""
    ollama_uri := "http://localhost:11434" }

/-- Request body dispatched by that send. -/
def bodyHi : ChatRequestBody := msg_body "" [ChatMessage.mk "user" "hi"]

/-- The busy state, with one request outstanding, is reachable. -/
theorem reachable_stBusy : Reachable (stBusy, 1) :=
  Relation.ReflTransGen.single
    (Step.send initState 0 "hi" stBusy (.dispatched bodyHi) (by decide))

/-- Witness for claim C6 at a concrete reachable busy state: the second send
is rejected with the busy toast and the state is untouched. -/
theorem c6_at_most_one_in_flight_witness :
    (1 : Nat) ≤ 1 ∧ (stBusy.is_llm_running = true ↔ (1 : Nat) = 1) ∧
      send_message stBusy "again" = (stBusy, .busyToast) :=
  ⟨(c6_at_most_one_in_flight (stBusy, 1) reachable_stBusy).1,
   (c6_at_most_one_in_flight (stBusy, 1) reachable_stBusy).2.1,
   (c6_at_most_one_in_flight (stBusy, 1) reachable_stBusy).2.2 "again" rfl⟩

/-- Counterexample to claim C7: applying the sanitizer twice differs from
applying it once on this input — removing the leftmost THINK block splices
the surrounding fragments into a new complete THINK block, which only a
second application removes. -/
theorem c7_idempotence_counterexample :
    stripThink (stripThink "<TH<THINK></THINK>INK>text</THINK>".data) ≠
      stripThink "<TH<THINK></THINK>INK>text</THINK>".data := by
  decide

/-- Claim C7 as amended: the sanitizer removes, scanning left to right, each
substring from an opening THINK delimiter to the earliest following closing
delimiter (case-insensitive, matching across lines), delimiters included — on
the spec's example it yields "AB" — and it returns every input containing no
complete THINK block unchanged; it is not idempotent in general, because a
removal can splice the surrounding fragments into a new complete block. -/
theorem c7_think_stripping_amended :
    (∀ s : List Char, hasThinkBlock s = false → stripThink s = s) ∧
    stripThink "A<THINK>secret</THINK>B".data = "AB".data ∧
    stripThink "<TH<THINK></THINK>INK>text</THINK>".data =
      "<THINK>text</THINK>".data :=
  ⟨fun s h => stripThink_no_block s h, by decide, by decide⟩

/-- Witness for amended claim C7 on a concrete block-free input. -/
theorem c7_think_stripping_amended_witness :
    hasThinkBlock "no hidden blocks here".data = false ∧
    stripThink "no hidden blocks here".data = "no hidden blocks here".data :=
  ⟨by decide,
   c7_think_stripping_amended.1 "no hidden blocks here".data (by decide)⟩

/-- Counterexample to claim C8: delivering an error-role result does not
append it to the transcript, against the claim that the assistant or error
message is appended after delivery. -/
theorem c8_error_append_counterexample :
    (ollama_callback stBusy
        (ChatMessage.mk "error" "**Error** with Ollama: refused")).1.messages ≠
      stBusy.messages ++ [ChatMessage.mk "error" "**Error** with Ollama: refused"] := by
  decide

/-- Claim C8 as amended: the transcript grows only by appends, sequentially
around a request — a send leaves it unchanged or appends the single stripped
user message, and does the latter exactly on the sends that dispatch a
request, before dispatch; the delivery appends the result exactly when its
role is "assistant", so an error result is rendered but not appended — and no
other operation mutates it; no clear or reset operation exists. -/
theorem c8_transcript_append_only_amended :
    (∀ (st : AppState) (input : String), ∃ suffix : List ChatMessage,
      (send_message st input).1.messages = st.messages ++ suffix) ∧
    (∀ (st st2 : AppState) (input : String) (body : ChatRequestBody),
      send_message st input = (st2, .dispatched body) →
      st2.messages = st.messages ++ [ChatMessage.mk "user" (pyStrip input)]) ∧
    (∀ (st : AppState) (resp : ChatMessage),
      (ollama_callback st resp).1.messages =
        if resp.role = "assistant" then st.messages ++ [resp] else st.messages) := by
  refine ⟨fun st input => ?_, fun st st2 input body heq => ?_, fun st resp => ?_⟩
  · by_cases hr : st.is_llm_running = true
    · exact ⟨[], by rw [send_message_busy st input hr]; simp⟩
    · have hr2 : st.is_llm_running = false := by
        cases hb : st.is_llm_running
        · rfl
        · exact absurd hb hr
      by_cases hs : pyStrip input = ""
      · exact ⟨[], by rw [send_message_empty st input hr2 hs]; simp⟩
      · exact ⟨[ChatMessage.mk "user" (pyStrip input)],
          by rw [send_message_dispatch_eq st input hr2 hs]⟩
  · by_cases hr : st.is_llm_running = true
    · rw [send_message_busy st input hr] at heq
      injection heq with he1 he2
      exact SendEffect.noConfusion he2
    · have hr2 : st.is_llm_running = false := by
        cases hb : st.is_llm_running
        · rfl
        · exact absurd hb hr
      by_cases hs : pyStrip input = ""
      · rw [send_message_empty st input hr2 hs] at heq
        injection heq with he1 he2
        exact SendEffect.noConfusion he2
      · rw [send_message_dispatch_eq st input hr2 hs] at heq
        injection heq with he1 he2
        rw [← he1]
  · rw [ollama_callback_eq st resp]

/-- Witness for amended claim C8 at the concrete dispatching send from the
initial state. -/
theorem c8_transcript_append_only_amended_witness :
    stBusy.messages = initState.messages ++ [ChatMessage.mk "user" (pyStrip "hi")] :=
  c8_transcript_append_only_amended.2.1 initState stBusy "hi" bodyHi (by decide)

/-- Counterexample to claim C9: with a malformed entry between two
well-formed ones, the listing drops the well-formed entry after it, so it
does not include every well-formed filter-passing name. -/
theorem c9_partial_listing_counterexample :
    get_llm_models (.ok [some "a", none, some "b"]) ≠ ["a", "b"] := by
  decide

/-- Claim C9 as amended: a malformed entry does not make the listing raise,
but it does abort the rest of the loop: the result is exactly the
filter-passing names of the well-formed entries before the first malformed
one, and every entry after it — well-formed or not — is dropped. -/
theorem c9_partial_listing_amended (pre : List String) (rest : List (Option String)) :
    get_llm_models (.ok (pre.map some ++ none :: rest)) =
      pre.filter (fun n => ! decide ("embed".data <:+: n.data)) := by
  rw [show get_llm_models (.ok (pre.map some ++ none :: rest)) =
        collectNames (pre.map some ++ none :: rest) from rfl,
      collectNames_append_none]
  exact List.filter_congr (fun n _ => by rw [hasSubstr_eq_decide])

/-- Claim C10: label_copy strips every opening or closing occurrence of the
listed markup tags and keeps the text outside and between them: the spec's
example strips to "Hello World"; an opening or closing tag of every listed
name at the head of the remaining text is removed whole for every
continuation; bracket-free text passes through unchanged; the embedding is a
total function whose output never exceeds the input, reflecting that the
source terminates and never raises on any input; and, the re.sub being
called without re.DOTALL, a would-be tag whose closing bracket lies beyond a
newline is not a match and is left in place. -/
theorem c10_markup_stripping :
    label_copy "[b]Hello[/b] [color=#fff]World[/color]" = "Hello World" ∧
    (∀ alt ∈ tagAlts, ∀ r : List Char,
      stripMarkup ('[' :: (alt ++ ']' :: r)) = stripMarkup r) ∧
    (∀ alt ∈ tagAlts, ∀ r : List Char,
      stripMarkup ('[' :: '/' :: (alt ++ ']' :: r)) = stripMarkup r) ∧
    (∀ pre r : List Char, '[' ∉ pre → stripMarkup (pre ++ r) = pre ++ stripMarkup r) ∧
    (∀ s : List Char, (stripMarkup s).length ≤ s.length) ∧
    label_copy "[b\n]x" = "[b\n]x" ∧
    label_copy "[size=2\n0]y" = "[size=2\n0]y" :=
  ⟨by decide,
   fun alt halt r => stripMarkup_open_tag alt halt r,
   fun alt halt r => stripMarkup_close_tag alt halt r,
   fun pre r h => stripMarkup_clean_append pre r h,
   fun s => stripMarkupGo_length s.length s,
   by decide,
   by decide⟩

/-- Witness for claim C10 at concrete tags, continuations and a bracket-free
prefix. -/
theorem c10_markup_stripping_witness :
    stripMarkup ('[' :: ("b".data ++ ']' :: "x".data)) = stripMarkup "x".data ∧
    stripMarkup ('[' :: '/' :: ("i".data ++ ']' :: "y".data)) = stripMarkup "y".data ∧
    stripMarkup ("ab".data ++ "[u]c[/u]".data) = "ab".data ++ stripMarkup "[u]c[/u]".data :=
  ⟨c10_markup_stripping.2.1 "b".data (by decide) "x".data,
   c10_markup_stripping.2.2.1 "i".data (by decide) "y".data,
   c10_markup_stripping.2.2.2.1 "ab".data "[u]c[/u]".data (by decide)⟩

end AIChat
